import Mathlib

/-!
# Verification of the update-scheduler abstract models

Shallow embedding of `src/common/models.py` and `src/common/managers.py`
(abstract Django models providing an update scheduler with run history,
adaptive timeouts, and bounded-retention bulk creation), together with
proofs checking the natural-language specification against this embedding.

Modelling conventions:
* timestamps and durations are rationals (`ℚ`); Django `DateTimeField`
  values that may be NULL are `Option ℚ`;
* Python truthiness of `timedelta` / numeric optionals is modelled
  explicitly (`none` and zero are falsy);
* exceptions are an inductive type with a dedicated constructor for the
  `ProcessTerminatedError` sentinel, since the code tests the exact class
  (`type(exception) is ProcessTerminatedError`);
* each external call to the scheduler reads the wall clock a bounded
  number of times; clock reads that the source performs inside one
  handler at essentially the same instant are modelled by a single
  logical time parameter, while the start and the finish of a run are
  distinct parameters;
* the concurrency of `UpdatableModel.update` (two locks, many threads)
  is modelled by an explicit small-step transition system over a global
  state; reachability is an inductive predicate.
-/

namespace UpdScheduler

/-- A row of `UpdateLogModel` (`src/common/models.py` lines 91-97, with the
inherited fields `time_created` from `TimedModel`, `messages` from
`LogModel`, `time_finished` from `ContinuousLogModel`).  `time_created`
is populated by `auto_now_add` at save time, and the Django field is
queried with `__isnull` filters, hence `Option ℚ`. -/
structure UpdateLog where
  time_created : Option ℚ
  time_finished : Option ℚ
  was_canceled : Bool
  was_terminated : Bool
  has_failed : Bool
  messages : Option String
  deriving Repr, DecidableEq

/-- Field defaults of `UpdateLogModel`: the three outcome flags default to
`False`, `messages` and `time_finished` are NULL until set. -/
def UpdateLog.fresh (created : Option ℚ) : UpdateLog :=
  { time_created := created
    time_finished := none
    was_canceled := false
    was_terminated := false
    has_failed := false
    messages := none }

/-- Python truthiness of an optional duration/number: `None` is falsy and a
zero `timedelta` (or zero number) is falsy. -/
def qTruthy : Option ℚ → Bool
  | none => false
  | some q => q != 0

/-- Exceptions, with the `ProcessTerminatedError` sentinel distinguished
because `_handle_exception` checks the exact class of the exception. -/
inductive Exc where
  | processTerminated
  | other (msg : String)
  deriving Repr, DecidableEq

/-- Models `''.join(traceback.TracebackException.from_exception(exc).format())`:
a diagnostic string computed from the exception (the traceback library is
external; what matters to the spec is that the full diagnostic text of the
exception lands in `messages`). -/
def formatTraceback : Exc → String
  | .processTerminated => "common.exceptions.ProcessTerminatedError"
  | .other msg => msg

/-- One row qualifies for the duration average
(`calc_average_update_time`'s filter: both timestamps non-NULL, all three
outcome flags `False`). -/
def UpdateLog.isClean (r : UpdateLog) : Bool :=
  r.time_created.isSome && r.time_finished.isSome
    && !r.was_canceled && !r.was_terminated && !r.has_failed

/-- Duration of a row, `time_finished - time_created` (used only on rows
where both are present; `getD` supplies a dummy otherwise, as the filter
has already excluded such rows). -/
def UpdateLog.duration (r : UpdateLog) : ℚ :=
  r.time_finished.getD 0 - r.time_created.getD 0

/-- `UpdatableLoggableModel.calc_average_update_time`
(`src/common/models.py` lines 239-252): filter the log rows to both
timestamps non-NULL and `was_canceled = was_terminated = has_failed =
False`, then `aggregate(avg=Avg(F(time_finished) - F(time_created)))`.
Django's `Avg` over an empty queryset yields `None`. -/
def calc_average_update_time (store : List UpdateLog) : Option ℚ :=
  let qs := store.filter UpdateLog.isClean
  if qs.length = 0 then none
  else some ((qs.map UpdateLog.duration).sum / qs.length)

/-- Spec-side Duration Estimate (spec §3 "Duration Estimate" and §4.4):
the arithmetic mean of `completion − creation` over the records where all
outcome flags are false and both timestamps are present; an explicit
no-data result when zero records qualify.  Stated from the spec's words,
to be compared with `calc_average_update_time`. -/
def durationEstimateSpec (store : List UpdateLog) : Option ℚ :=
  let durs := (store.filter UpdateLog.isClean).map UpdateLog.duration
  match durs with
  | [] => none
  | _ => some (durs.sum / durs.length)

/-- `UpdatableModel.is_can_start` (`src/common/models.py` lines 119-128):
admit when idle; otherwise admit only when a time limit is configured
(truthy) and `now - _time_started > time_limit`. -/
def is_can_start_base (isUpdating : Bool) (timeLimit : Option ℚ)
    (now timeStarted : ℚ) : Bool :=
  if !isUpdating then true
  else if !qTruthy timeLimit then false
  else if now - timeStarted > timeLimit.getD 0 then true
  else false

/-- `UpdatableLoggableModel.is_can_start` (`src/common/models.py`
lines 254-274).  `average_time` starts as `None` and is computed only when
`use_average_time` holds; the adaptive branch admits when the average is
truthy and elapsed exceeds `average * coefficient`; the fixed-budget branch
is guarded by `not average_time` in the source. -/
def is_can_start (isUpdating : Bool) (timeLimit : Option ℚ)
    (useAverageTime : Bool) (averageTimeCoefficient : ℚ)
    (now timeStarted : ℚ) (store : List UpdateLog) : Bool :=
  if !isUpdating then true
  else
    let currentTime := now - timeStarted
    let averageTime : Option ℚ :=
      if useAverageTime then calc_average_update_time store else none
    if qTruthy averageTime
        && decide (currentTime > averageTime.getD 0 * averageTimeCoefficient) then
      true
    else if !qTruthy averageTime && qTruthy timeLimit
        && decide (currentTime > timeLimit.getD 0) then
      true
    else
      false

/-- The admission decision as claim C1 words it (spec §4.1 step 2 read with
an unconditional else-if): when running and the adaptive estimate exists
but its threshold is not exceeded, a configured exceeded fixed budget still
admits.  Stated from the claim's words, to be compared with
`is_can_start`. -/
def is_can_start_claimed (isUpdating : Bool) (timeLimit : Option ℚ)
    (useAverageTime : Bool) (averageTimeCoefficient : ℚ)
    (now timeStarted : ℚ) (store : List UpdateLog) : Bool :=
  if !isUpdating then true
  else
    let currentTime := now - timeStarted
    let averageTime : Option ℚ :=
      if useAverageTime then calc_average_update_time store else none
    if qTruthy averageTime
        && decide (currentTime > averageTime.getD 0 * averageTimeCoefficient) then
      true
    else if qTruthy timeLimit && decide (currentTime > timeLimit.getD 0) then
      true
    else
      false

/-- Models `objects.latest('time_finished').time_finished` on a non-empty
queryset: `latest` orders by the field descending and takes the first row,
NULL completion timestamps ordering after the non-NULL ones, so the value
read back is the maximum of the present `time_finished` values (and NULL
when no row of the queryset has one). -/
def latestTimeFinished (l : List UpdateLog) : Option ℚ :=
  l.foldr
    (fun r acc =>
      match r.time_finished, acc with
      | none, a => a
      | some t, none => some t
      | some t, some a => some (max t a))
    none

/-- `UpdatableLoggableModel.get_last_update_time` (`src/common/models.py`
lines 213-219): filter the log rows, return `None` for an empty queryset
(`if not objects`), else the `time_finished` of the latest row. -/
def get_last_update_time (p : UpdateLog → Bool) (store : List UpdateLog) :
    Option ℚ :=
  let objs := store.filter p
  if objs.isEmpty then none
  else latestTimeFinished objs

/-- `UpdatableLoggableModel.get_last_update_attempt_time` (lines 221-227):
filter is `was_canceled = False`. -/
def get_last_update_attempt_time (store : List UpdateLog) : Option ℚ :=
  get_last_update_time (fun r => r.was_canceled == false) store

/-- `UpdatableLoggableModel.get_last_successful_update_time`
(lines 229-237): filter is `was_canceled = was_terminated = has_failed =
False`. -/
def get_last_successful_update_time (store : List UpdateLog) : Option ℚ :=
  get_last_update_time
    (fun r => r.was_canceled == false && r.was_terminated == false
      && r.has_failed == false)
    store

/-- Spec-side `lastAttemptTime` / `lastSuccessTime` (spec §4.5): the latest
completion timestamp among the qualifying records, absent when none
qualifies (or none of the qualifying records carries a completion
timestamp).  Stated from the spec's words, to be compared with
`get_last_update_time`. -/
def latestCompletionSpec (p : UpdateLog → Bool) (store : List UpdateLog) :
    Option ℚ :=
  ((store.filter p).filterMap UpdateLog.time_finished).foldr
    (fun t acc => some (match acc with | none => t | some a => max t a)) none

/-- Static configuration of an `UpdatableLoggableModel` subclass:
`time_limit` (`UpdatableModel` line 109), `use_average_time` and
`average_time_coefficient` (`UpdatableLoggableModel` lines 193-194). -/
structure Config where
  timeLimit : Option ℚ
  useAverageTime : Bool
  averageTimeCoefficient : ℚ

/-- Mutable class-level scheduling state touched by one `update` call in
the functional (single-call) model: the persisted log rows, `_time_started`
and `_must_terminate` (`UpdatableModel` lines 104-107). -/
structure UState where
  store : List UpdateLog
  timeStarted : Option ℚ
  mustTerminate : Bool
  deriving Repr, DecidableEq

/-- Outcome of the injected job body (`_update`, together with any error
escaping `_pre_update`/`_post_update`, all caught by the same `except`). -/
inductive BodyOutcome where
  | ok
  | raise (e : Exc)
  deriving Repr, DecidableEq

/-- `UpdatableLoggableModel.is_can_start` evaluated on the live state: when
running, the source computes `timezone.now() - cls._time_started`, which
raises a `TypeError` when `_time_started` is still its initial `None`;
`none` models that failure. -/
def is_can_start_opt (isUpdating : Bool) (cfg : Config)
    (now : ℚ) (timeStarted : Option ℚ) (store : List UpdateLog) :
    Option Bool :=
  if !isUpdating then some true
  else
    match timeStarted with
    | none => none
    | some ts =>
        some (is_can_start isUpdating cfg.timeLimit cfg.useAverageTime
          cfg.averageTimeCoefficient now ts store)

/-- The canceled record written by
`UpdatableLoggableModel._handle_cannot_start` (lines 276-282): a fresh row
with `time_finished = now`, `was_canceled = True`, saved at once (so
`auto_now_add` stamps `time_created` with the same logical time). -/
def canceledRecord (now : ℚ) : UpdateLog :=
  { UpdateLog.fresh (some now) with
    time_finished := some now
    was_canceled := true }

/-- The record finalized by `_handle_exception` (lines 294-303) for a run
opened at `tStart`: exactly one of `was_terminated`/`has_failed` is set
according to whether the exception is exactly the `ProcessTerminatedError`
sentinel, `messages` receives the formatted traceback and `time_finished`
the current time. -/
def failedRecord (tStart tFinish : ℚ) (e : Exc) : UpdateLog :=
  { time_created := some tStart
    time_finished := some tFinish
    was_canceled := false
    was_terminated := e == Exc.processTerminated
    has_failed := !(e == Exc.processTerminated)
    messages := some (formatTraceback e) }

/-- `UpdatableLoggableModel.update` — the base algorithm
(`UpdatableModel.update`, lines 150-183) instantiated with the loggable
hooks — as a single-call function.  Inputs beyond the state: whether the
execution lock is observed held at the admission check (`isUpdating`), the
logical time of the admission step (`tNow`), the logical time of
finalization (`tFinish`), the job body's outcome, and whether the
failure-handling step itself raises (`handlerExc`, e.g. a persistence
failure in `_handle_exception`'s save, in which case the open row is left
unfinalized in the store).  Returns `none` when the admission check itself
raises (`TypeError` on `now - None`), else the `(is_update_successful,
exception, exception_after_handling_attempt)` triple and the new state. -/
def update (cfg : Config) (isUpdating : Bool) (s : UState)
    (tNow tFinish : ℚ) (body : BodyOutcome) (handlerExc : Option Exc) :
    Option ((Bool × Option Exc × Option Exc) × UState) :=
  match is_can_start_opt isUpdating cfg tNow s.timeStarted s.store with
  | none => none
  | some false =>
      some ((false, none, none),
        { s with store := s.store ++ [canceledRecord tNow] })
  | some true =>
      let s1 : UState :=
        { store := s.store ++ [UpdateLog.fresh (some tNow)]
          timeStarted := some tNow
          mustTerminate := false }
      match body with
      | .ok =>
          some ((true, none, none),
            { s1 with
              store := s.store ++
                [{ UpdateLog.fresh (some tNow) with
                    time_finished := some tFinish }] })
      | .raise e =>
          match handlerExc with
          | none =>
              some ((false, some e, none),
                { s1 with
                  store := s.store ++ [failedRecord tNow tFinish e] })
          | some e2 =>
              some ((false, some e, some e2), s1)

/-- Python truthiness of the optional `max_objects_count` integer:
`None` and `0` are falsy. -/
def natTruthy : Option ℕ → Bool
  | none => false
  | some n => n != 0

/-- Errors `AutoDeleteQuerySet.bulk_create` can raise: its own
`OperationConflictsConfigError`, or the `TypeError` Python raises when
`max_objects_count` was never configured and `count + len(objs) > None`
is evaluated. -/
inductive BulkError where
  | operationConflictsConfig
  | typeError
  deriving Repr, DecidableEq

/-- `DeletableModel.get_objects_to_delete` (`src/common/models.py`
lines 50-58) on a store listed in the retention ordering (`time_created`
ascending, oldest first): when a max count is configured (truthy), the
first `count - max` objects; otherwise nothing. -/
def get_objects_to_delete (maxObjectsCount : Option ℕ) (store : List α) :
    List α :=
  let objectsToDeleteCount : ℤ :=
    if natTruthy maxObjectsCount then
      (store.length : ℤ) - (maxObjectsCount.getD 0 : ℤ)
    else 0
  if objectsToDeleteCount ≤ 0 then []
  else store.take objectsToDeleteCount.toNat

/-- `DeletableModel.try_delete_objects` (lines 60-63): delete exactly the
objects selected by `get_objects_to_delete`, returning the surviving
store. -/
def try_delete_objects (maxObjectsCount : Option ℕ) (store : List α) :
    List α :=
  store.drop (get_objects_to_delete maxObjectsCount store).length

/-- `AutoDeleteQuerySet.bulk_create` (`src/common/managers.py`
lines 8-22): raise `OperationConflictsConfigError` before inserting
anything when `count + len(objs) > max`; otherwise insert all objects and
run `try_delete_objects`.  Returns the resulting store together with the
raised error, if any (on an error the store is the unchanged input). -/
def bulk_create (maxObjectsCount : Option ℕ) (store objs : List α) :
    List α × Option BulkError :=
  match maxObjectsCount with
  | none => (store, some .typeError)
  | some m =>
      if store.length + objs.length > m then
        (store, some .operationConflictsConfig)
      else
        (try_delete_objects (some m) (store ++ objs), none)

/-! ## Concurrency model of `UpdatableModel.update`

`update` (`src/common/models.py` lines 150-183) is executed by any number
of threads against the class-level `_check_lock`, `_update_lock`,
`_time_started` and `_must_terminate`.  Each source line that touches the
shared state is one program counter value; the transition system
interleaves the threads arbitrarily.  Lock `acquire` requires the lock to
be free (blocking is modelled by the step simply not being enabled);
`release` is unconditional, as in the source — that the releasing thread
actually owns the lock is proved, not assumed.  The admission decision of
line 154 is nondeterministic (it depends on clocks and configuration),
except that `is_can_start` can only return `False` while the update lock
is held (both implementations return `True` immediately when
`is_updating()` is false). -/

/-- Program counters of `update`, one per shared-state access:
`start` = about to `_check_lock.acquire()` (line 152); `decide` = about to
evaluate `is_can_start` (line 154); `reject` = about to run
`_handle_cannot_start`, release the check lock and return (lines 155-157);
`setTerm` = about to set `_must_terminate = True` (line 159); `waitLock` =
blocked acquiring `_update_lock` (line 161); `entryClear` = about to clear
`_must_terminate` (line 162); `entryStamp` = about to assign
`_time_started` (line 163); `entryRelease` = about to release the check
lock (line 164); `body` = executing `_pre_update`/`_update`/`_post_update`
and any exception handling (lines 166-182); `exitRelease` = leaving the
`with` block, which releases `_update_lock` on every exit path; `done` =
returned. -/
inductive PC where
  | start
  | decide
  | reject
  | setTerm
  | waitLock
  | entryClear
  | entryStamp
  | entryRelease
  | body
  | exitRelease
  | done
  deriving Repr, DecidableEq

/-- How one admitted run leaves the `try` of lines 170-182: normal return,
a job-body error handled cleanly, or a job-body error whose handling
raised again.  All three reach the end of the `with` block. -/
inductive RunExit where
  | ok
  | bodyError
  | bodyErrorThenHandlerError
  deriving Repr, DecidableEq

/-- One thread executing `update`: its program counter, how many times its
`_update_lock.acquire()` succeeded, how many times it released that lock,
and the recorded exit path of its run, if finished. -/
structure Thread where
  pc : PC
  acquired : ℕ
  released : ℕ
  outcome : Option RunExit
  deriving Repr, DecidableEq

/-- The process-wide state: owners of the two class-level locks (`none` =
free), `_time_started`, `_must_terminate`, and the per-thread states. -/
structure GState where
  checkOwner : Option ℕ
  updateOwner : Option ℕ
  timeStarted : Option ℚ
  mustTerminate : Bool
  threads : ℕ → Thread

/-- Program counters at which a thread holds `_check_lock`: from a
successful acquire (line 152) until its release at line 156 (rejection) or
line 164 (admission). -/
def checkHeld : PC → Bool
  | .decide | .reject | .setTerm | .waitLock
  | .entryClear | .entryStamp | .entryRelease => true
  | _ => false

/-- Program counters at which a thread holds `_update_lock`: from a
successful acquire (line 161) until the `with` block releases it. -/
def updHeld : PC → Bool
  | .entryClear | .entryStamp | .entryRelease | .body | .exitRelease => true
  | _ => false

/-- The initial process state: both locks free, `_time_started = None`,
`_must_terminate = False` (lines 104-107), every thread about to call
`update`. -/
def initState : GState :=
  { checkOwner := none
    updateOwner := none
    timeStarted := none
    mustTerminate := false
    threads := fun _ => { pc := .start, acquired := 0, released := 0, outcome := none } }

/-- Interleaved small-step semantics of `update`.  Each constructor is one
thread `i` executing its next shared-state access. -/
inductive Step : GState → GState → Prop where
  | acquireCheck (s : GState) (i : ℕ) :
      (s.threads i).pc = .start →
      s.checkOwner = none →
      Step s { s with
        checkOwner := some i
        threads := Function.update s.threads i { s.threads i with pc := .decide } }
  | decideTrue (s : GState) (i : ℕ) :
      (s.threads i).pc = .decide →
      Step s { s with
        threads := Function.update s.threads i { s.threads i with pc := .setTerm } }
  | decideFalse (s : GState) (i : ℕ) :
      (s.threads i).pc = .decide →
      s.updateOwner.isSome →
      Step s { s with
        threads := Function.update s.threads i { s.threads i with pc := .reject } }
  | rejectReturn (s : GState) (i : ℕ) :
      (s.threads i).pc = .reject →
      Step s { s with
        checkOwner := none
        threads := Function.update s.threads i { s.threads i with pc := .done } }
  | setTermFlag (s : GState) (i : ℕ) :
      (s.threads i).pc = .setTerm →
      Step s { s with
        mustTerminate := true
        threads := Function.update s.threads i { s.threads i with pc := .waitLock } }
  | acquireUpdate (s : GState) (i : ℕ) :
      (s.threads i).pc = .waitLock →
      s.updateOwner = none →
      Step s { s with
        updateOwner := some i
        threads := Function.update s.threads i
          { s.threads i with pc := .entryClear, acquired := (s.threads i).acquired + 1 } }
  | entryClearFlag (s : GState) (i : ℕ) :
      (s.threads i).pc = .entryClear →
      Step s { s with
        mustTerminate := false
        threads := Function.update s.threads i { s.threads i with pc := .entryStamp } }
  | entryStampTime (s : GState) (i : ℕ) (t : ℚ) :
      (s.threads i).pc = .entryStamp →
      Step s { s with
        timeStarted := some t
        threads := Function.update s.threads i { s.threads i with pc := .entryRelease } }
  | entryReleaseCheck (s : GState) (i : ℕ) :
      (s.threads i).pc = .entryRelease →
      Step s { s with
        checkOwner := none
        threads := Function.update s.threads i { s.threads i with pc := .body } }
  | runBody (s : GState) (i : ℕ) (o : RunExit) :
      (s.threads i).pc = .body →
      Step s { s with
        threads := Function.update s.threads i
          { s.threads i with pc := .exitRelease, outcome := some o } }
  | exitReleaseUpdate (s : GState) (i : ℕ) :
      (s.threads i).pc = .exitRelease →
      Step s { s with
        updateOwner := none
        threads := Function.update s.threads i
          { s.threads i with pc := .done, released := (s.threads i).released + 1 } }

/-- States reachable from process start by any interleaving. -/
inductive Reachable : GState → Prop where
  | init : Reachable initState
  | step {s s' : GState} : Reachable s → Step s s' → Reachable s'

/-- The inductive invariant of the two-lock protocol:
1. a thread inside the admission critical section is the check lock's
   registered owner;
2. a thread inside the execution critical section is the update lock's
   registered owner;
3. the update lock's registered owner, if any, is a thread inside the
   execution critical section;
4. each thread has released the update lock exactly once per successful
   acquire, minus the one acquisition it currently holds;
5. once the current owner has passed the `_time_started` assignment,
   `_time_started` is a real timestamp. -/
def Inv (s : GState) : Prop :=
  (∀ i, checkHeld (s.threads i).pc → s.checkOwner = some i) ∧
  (∀ i, updHeld (s.threads i).pc → s.updateOwner = some i) ∧
  (∀ i, s.updateOwner = some i → updHeld (s.threads i).pc) ∧
  (∀ i, (s.threads i).acquired =
    (s.threads i).released + (if updHeld (s.threads i).pc then 1 else 0)) ∧
  (∀ i, ((s.threads i).pc = .entryRelease ∨ (s.threads i).pc = .body ∨
    (s.threads i).pc = .exitRelease) → s.timeStarted.isSome)

theorem inv_init : Inv initState := by
  refine ⟨?_, ?_, ?_, ?_, ?_⟩ <;> intro i <;> simp [initState, checkHeld, updHeld]

theorem inv_step {s s' : GState} (hInv : Inv s) (hStep : Step s s') : Inv s' := by
  obtain ⟨hChk, hUpd, hOwn, hAcc, hTime⟩ := hInv
  cases hStep with
  | acquireCheck i hpc hfree =>
      refine ⟨fun j hj => ?_, fun j hj => ?_, fun j hj => ?_, fun j => ?_, fun j hj => ?_⟩
      · rcases eq_or_ne j i with rfl | hij
        · rfl
        · simp only [Function.update_apply, if_neg hij] at hj
          exact absurd (hChk j hj) (by rw [hfree]; simp)
      · rcases eq_or_ne j i with rfl | hij
        · simp only [Function.update_apply, if_pos rfl] at hj
          simp [updHeld] at hj
        · simp only [Function.update_apply, if_neg hij] at hj
          exact hUpd j hj
      · rcases eq_or_ne j i with rfl | hij
        · have := hOwn j hj
          rw [hpc] at this
          simp [updHeld] at this
        · simp only [Function.update_apply, if_neg hij]
          exact hOwn j hj
      · rcases eq_or_ne j i with rfl | hij
        · simp only [Function.update_apply, if_pos rfl]
          have := hAcc j
          rw [hpc] at this
          simpa [updHeld] using this
        · simp only [Function.update_apply, if_neg hij]
          exact hAcc j
      · rcases eq_or_ne j i with rfl | hij
        · simp only [Function.update_apply, if_pos rfl] at hj
          simp at hj
        · simp only [Function.update_apply, if_neg hij] at hj
          exact hTime j hj
  | decideTrue i hpc =>
      refine ⟨fun j hj => ?_, fun j hj => ?_, fun j hj => ?_, fun j => ?_, fun j hj => ?_⟩
      · rcases eq_or_ne j i with rfl | hij
        · exact hChk j (by rw [hpc]; rfl)
        · simp only [Function.update_apply, if_neg hij] at hj
          exact hChk j hj
      · rcases eq_or_ne j i with rfl | hij
        · simp only [Function.update_apply, if_pos rfl] at hj
          simp [updHeld] at hj
        · simp only [Function.update_apply, if_neg hij] at hj
          exact hUpd j hj
      · rcases eq_or_ne j i with rfl | hij
        · have := hOwn j hj
          rw [hpc] at this
          simp [updHeld] at this
        · simp only [Function.update_apply, if_neg hij]
          exact hOwn j hj
      · rcases eq_or_ne j i with rfl | hij
        · simp only [Function.update_apply, if_pos rfl]
          have := hAcc j
          rw [hpc] at this
          simpa [updHeld] using this
        · simp only [Function.update_apply, if_neg hij]
          exact hAcc j
      · rcases eq_or_ne j i with rfl | hij
        · simp only [Function.update_apply, if_pos rfl] at hj
          simp at hj
        · simp only [Function.update_apply, if_neg hij] at hj
          exact hTime j hj
  | decideFalse i hpc hbusy =>
      refine ⟨fun j hj => ?_, fun j hj => ?_, fun j hj => ?_, fun j => ?_, fun j hj => ?_⟩
      · rcases eq_or_ne j i with rfl | hij
        · exact hChk j (by rw [hpc]; rfl)
        · simp only [Function.update_apply, if_neg hij] at hj
          exact hChk j hj
      · rcases eq_or_ne j i with rfl | hij
        · simp only [Function.update_apply, if_pos rfl] at hj
          simp [updHeld] at hj
        · simp only [Function.update_apply, if_neg hij] at hj
          exact hUpd j hj
      · rcases eq_or_ne j i with rfl | hij
        · have := hOwn j hj
          rw [hpc] at this
          simp [updHeld] at this
        · simp only [Function.update_apply, if_neg hij]
          exact hOwn j hj
      · rcases eq_or_ne j i with rfl | hij
        · simp only [Function.update_apply, if_pos rfl]
          have := hAcc j
          rw [hpc] at this
          simpa [updHeld] using this
        · simp only [Function.update_apply, if_neg hij]
          exact hAcc j
      · rcases eq_or_ne j i with rfl | hij
        · simp only [Function.update_apply, if_pos rfl] at hj
          simp at hj
        · simp only [Function.update_apply, if_neg hij] at hj
          exact hTime j hj
  | rejectReturn i hpc =>
      refine ⟨fun j hj => ?_, fun j hj => ?_, fun j hj => ?_, fun j => ?_, fun j hj => ?_⟩
      · rcases eq_or_ne j i with rfl | hij
        · simp only [Function.update_apply, if_pos rfl] at hj
          simp [checkHeld] at hj
        · simp only [Function.update_apply, if_neg hij] at hj
          have h1 := hChk j hj
          have h2 := hChk i (by rw [hpc]; rfl)
          rw [h2] at h1
          exact absurd (Option.some.injEq _ _ ▸ h1) (by exact fun h => hij h.symm)
      · rcases eq_or_ne j i with rfl | hij
        · simp only [Function.update_apply, if_pos rfl] at hj
          simp [updHeld] at hj
        · simp only [Function.update_apply, if_neg hij] at hj
          exact hUpd j hj
      · rcases eq_or_ne j i with rfl | hij
        · have := hOwn j hj
          rw [hpc] at this
          simp [updHeld] at this
        · simp only [Function.update_apply, if_neg hij]
          exact hOwn j hj
      · rcases eq_or_ne j i with rfl | hij
        · simp only [Function.update_apply, if_pos rfl]
          have := hAcc j
          rw [hpc] at this
          simpa [updHeld] using this
        · simp only [Function.update_apply, if_neg hij]
          exact hAcc j
      · rcases eq_or_ne j i with rfl | hij
        · simp only [Function.update_apply, if_pos rfl] at hj
          simp at hj
        · simp only [Function.update_apply, if_neg hij] at hj
          exact hTime j hj
  | setTermFlag i hpc =>
      refine ⟨fun j hj => ?_, fun j hj => ?_, fun j hj => ?_, fun j => ?_, fun j hj => ?_⟩
      · rcases eq_or_ne j i with rfl | hij
        · exact hChk j (by rw [hpc]; rfl)
        · simp only [Function.update_apply, if_neg hij] at hj
          exact hChk j hj
      · rcases eq_or_ne j i with rfl | hij
        · simp only [Function.update_apply, if_pos rfl] at hj
          simp [updHeld] at hj
        · simp only [Function.update_apply, if_neg hij] at hj
          exact hUpd j hj
      · rcases eq_or_ne j i with rfl | hij
        · have := hOwn j hj
          rw [hpc] at this
          simp [updHeld] at this
        · simp only [Function.update_apply, if_neg hij]
          exact hOwn j hj
      · rcases eq_or_ne j i with rfl | hij
        · simp only [Function.update_apply, if_pos rfl]
          have := hAcc j
          rw [hpc] at this
          simpa [updHeld] using this
        · simp only [Function.update_apply, if_neg hij]
          exact hAcc j
      · rcases eq_or_ne j i with rfl | hij
        · simp only [Function.update_apply, if_pos rfl] at hj
          simp at hj
        · simp only [Function.update_apply, if_neg hij] at hj
          exact hTime j hj
  | acquireUpdate i hpc hfree =>
      refine ⟨fun j hj => ?_, fun j hj => ?_, fun j hj => ?_, fun j => ?_, fun j hj => ?_⟩
      · rcases eq_or_ne j i with rfl | hij
        · exact hChk j (by rw [hpc]; rfl)
        · simp only [Function.update_apply, if_neg hij] at hj
          exact hChk j hj
      · rcases eq_or_ne j i with rfl | hij
        · rfl
        · simp only [Function.update_apply, if_neg hij] at hj
          exact absurd (hUpd j hj) (by rw [hfree]; simp)
      · have hji : j = i := by
          have : (some i : Option ℕ) = some j := hj
          exact (Option.some.injEq _ _ ▸ this).symm
        subst hji
        simp only [Function.update_apply, if_pos rfl]
        rfl
      · rcases eq_or_ne j i with rfl | hij
        · simp only [Function.update_apply, if_pos rfl]
          have := hAcc j
          rw [hpc] at this
          simp [updHeld] at this ⊢
          omega
        · simp only [Function.update_apply, if_neg hij]
          exact hAcc j
      · rcases eq_or_ne j i with rfl | hij
        · simp only [Function.update_apply, if_pos rfl] at hj
          simp at hj
        · simp only [Function.update_apply, if_neg hij] at hj
          exact hTime j hj
  | entryClearFlag i hpc =>
      refine ⟨fun j hj => ?_, fun j hj => ?_, fun j hj => ?_, fun j => ?_, fun j hj => ?_⟩
      · rcases eq_or_ne j i with rfl | hij
        · exact hChk j (by rw [hpc]; rfl)
        · simp only [Function.update_apply, if_neg hij] at hj
          exact hChk j hj
      · rcases eq_or_ne j i with rfl | hij
        · exact hUpd j (by rw [hpc]; rfl)
        · simp only [Function.update_apply, if_neg hij] at hj
          exact hUpd j hj
      · rcases eq_or_ne j i with rfl | hij
        · simp only [Function.update_apply, if_pos rfl]
          rfl
        · simp only [Function.update_apply, if_neg hij]
          exact hOwn j hj
      · rcases eq_or_ne j i with rfl | hij
        · simp only [Function.update_apply, if_pos rfl]
          have := hAcc j
          rw [hpc] at this
          simpa [updHeld] using this
        · simp only [Function.update_apply, if_neg hij]
          exact hAcc j
      · rcases eq_or_ne j i with rfl | hij
        · simp only [Function.update_apply, if_pos rfl] at hj
          simp at hj
        · simp only [Function.update_apply, if_neg hij] at hj
          exact hTime j hj
  | entryStampTime i t hpc =>
      refine ⟨fun j hj => ?_, fun j hj => ?_, fun j hj => ?_, fun j => ?_, fun j hj => ?_⟩
      · rcases eq_or_ne j i with rfl | hij
        · exact hChk j (by rw [hpc]; rfl)
        · simp only [Function.update_apply, if_neg hij] at hj
          exact hChk j hj
      · rcases eq_or_ne j i with rfl | hij
        · exact hUpd j (by rw [hpc]; rfl)
        · simp only [Function.update_apply, if_neg hij] at hj
          exact hUpd j hj
      · rcases eq_or_ne j i with rfl | hij
        · simp only [Function.update_apply, if_pos rfl]
          rfl
        · simp only [Function.update_apply, if_neg hij]
          exact hOwn j hj
      · rcases eq_or_ne j i with rfl | hij
        · simp only [Function.update_apply, if_pos rfl]
          have := hAcc j
          rw [hpc] at this
          simpa [updHeld] using this
        · simp only [Function.update_apply, if_neg hij]
          exact hAcc j
      · rfl
  | entryReleaseCheck i hpc =>
      refine ⟨fun j hj => ?_, fun j hj => ?_, fun j hj => ?_, fun j => ?_, fun j hj => ?_⟩
      · rcases eq_or_ne j i with rfl | hij
        · simp only [Function.update_apply, if_pos rfl] at hj
          simp [checkHeld] at hj
        · simp only [Function.update_apply, if_neg hij] at hj
          have h1 := hChk j hj
          have h2 := hChk i (by rw [hpc]; rfl)
          rw [h2] at h1
          exact absurd (Option.some.injEq _ _ ▸ h1) (by exact fun h => hij h.symm)
      · rcases eq_or_ne j i with rfl | hij
        · exact hUpd j (by rw [hpc]; rfl)
        · simp only [Function.update_apply, if_neg hij] at hj
          exact hUpd j hj
      · rcases eq_or_ne j i with rfl | hij
        · simp only [Function.update_apply, if_pos rfl]
          rfl
        · simp only [Function.update_apply, if_neg hij]
          exact hOwn j hj
      · rcases eq_or_ne j i with rfl | hij
        · simp only [Function.update_apply, if_pos rfl]
          have := hAcc j
          rw [hpc] at this
          simpa [updHeld] using this
        · simp only [Function.update_apply, if_neg hij]
          exact hAcc j
      · exact hTime i (Or.inl hpc)
  | runBody i o hpc =>
      refine ⟨fun j hj => ?_, fun j hj => ?_, fun j hj => ?_, fun j => ?_, fun j hj => ?_⟩
      · rcases eq_or_ne j i with rfl | hij
        · simp only [Function.update_apply, if_pos rfl] at hj
          simp [checkHeld] at hj
        · simp only [Function.update_apply, if_neg hij] at hj
          exact hChk j hj
      · rcases eq_or_ne j i with rfl | hij
        · exact hUpd j (by rw [hpc]; rfl)
        · simp only [Function.update_apply, if_neg hij] at hj
          exact hUpd j hj
      · rcases eq_or_ne j i with rfl | hij
        · simp only [Function.update_apply, if_pos rfl]
          rfl
        · simp only [Function.update_apply, if_neg hij]
          exact hOwn j hj
      · rcases eq_or_ne j i with rfl | hij
        · simp only [Function.update_apply, if_pos rfl]
          have := hAcc j
          rw [hpc] at this
          simpa [updHeld] using this
        · simp only [Function.update_apply, if_neg hij]
          exact hAcc j
      · exact hTime i (Or.inr (Or.inl hpc))
  | exitReleaseUpdate i hpc =>
      refine ⟨fun j hj => ?_, fun j hj => ?_, fun j hj => ?_, fun j => ?_, fun j hj => ?_⟩
      · rcases eq_or_ne j i with rfl | hij
        · simp only [Function.update_apply, if_pos rfl] at hj
          simp [checkHeld] at hj
        · simp only [Function.update_apply, if_neg hij] at hj
          exact hChk j hj
      · rcases eq_or_ne j i with rfl | hij
        · simp only [Function.update_apply, if_pos rfl] at hj
          simp [updHeld] at hj
        · simp only [Function.update_apply, if_neg hij] at hj
          have h1 := hUpd j hj
          have h2 := hUpd i (by rw [hpc]; rfl)
          rw [h2] at h1
          exact absurd (Option.some.injEq _ _ ▸ h1) (by exact fun h => hij h.symm)
      · exact absurd hj (by simp)
      · rcases eq_or_ne j i with rfl | hij
        · simp only [Function.update_apply, if_pos rfl]
          have := hAcc j
          rw [hpc] at this
          simp [updHeld] at this ⊢
          omega
        · simp only [Function.update_apply, if_neg hij]
          exact hAcc j
      · rcases eq_or_ne j i with rfl | hij
        · simp only [Function.update_apply, if_pos rfl] at hj
          simp at hj
        · simp only [Function.update_apply, if_neg hij] at hj
          exact hTime j hj

/-- Every reachable process state satisfies the protocol invariant. -/
theorem inv_reachable {s : GState} (h : Reachable s) : Inv s := by
  induction h with
  | init => exact inv_init
  | step _ hstep ih => exact inv_step ih hstep

/-! ## A concrete interleaving: thread 0 runs one full admitted update.
The intermediate states are used to instantiate the reachability-indexed
theorems and to exhibit the window in which the update lock is held while
`_time_started` is still unassigned. -/

def w0 : GState := initState

def w1 : GState :=
  { w0 with checkOwner := some 0
            threads := Function.update w0.threads 0 { w0.threads 0 with pc := .decide } }

def w2 : GState :=
  { w1 with threads := Function.update w1.threads 0 { w1.threads 0 with pc := .setTerm } }

def w3 : GState :=
  { w2 with mustTerminate := true
            threads := Function.update w2.threads 0 { w2.threads 0 with pc := .waitLock } }

def w4 : GState :=
  { w3 with updateOwner := some 0
            threads := Function.update w3.threads 0
              { w3.threads 0 with pc := .entryClear, acquired := (w3.threads 0).acquired + 1 } }

def w5 : GState :=
  { w4 with mustTerminate := false
            threads := Function.update w4.threads 0 { w4.threads 0 with pc := .entryStamp } }

def w6 : GState :=
  { w5 with timeStarted := some 0
            threads := Function.update w5.threads 0 { w5.threads 0 with pc := .entryRelease } }

def w7 : GState :=
  { w6 with checkOwner := none
            threads := Function.update w6.threads 0 { w6.threads 0 with pc := .body } }

def w8 : GState :=
  { w7 with threads := Function.update w7.threads 0
              { w7.threads 0 with pc := .exitRelease, outcome := some .ok } }

def w9 : GState :=
  { w8 with updateOwner := none
            threads := Function.update w8.threads 0
              { w8.threads 0 with pc := .done, released := (w8.threads 0).released + 1 } }

theorem reach_w4 : Reachable w4 :=
  Reachable.step
    (Reachable.step
      (Reachable.step
        (Reachable.step Reachable.init (Step.acquireCheck w0 0 rfl rfl))
        (Step.decideTrue w1 0 (by decide)))
      (Step.setTermFlag w2 0 (by decide)))
    (Step.acquireUpdate w3 0 (by decide) rfl)

theorem reach_w9 : Reachable w9 :=
  Reachable.step
    (Reachable.step
      (Reachable.step
        (Reachable.step
          (Reachable.step reach_w4 (Step.entryClearFlag w4 0 (by decide)))
          (Step.entryStampTime w5 0 0 (by decide)))
        (Step.entryReleaseCheck w6 0 (by decide)))
      (Step.runBody w7 0 .ok (by decide)))
    (Step.exitReleaseUpdate w8 0 (by decide))

/-- C2: for all interleavings of any number of concurrent `update` calls
on one job class, at most one thread is executing the job body at any
instant, and each thread has released the execution lock exactly once per
successful acquisition — one acquisition still outstanding exactly while
the thread is inside the lock-protected region — so a thread that has
returned (on any of the three exit paths recorded in its outcome) has
balanced acquire/release counts. -/
theorem claimC2_mutual_exclusion_and_lock_discipline :
    ∀ g : GState, Reachable g →
      (∀ i j : ℕ, (g.threads i).pc = PC.body → (g.threads j).pc = PC.body → i = j) ∧
      (∀ i : ℕ, (g.threads i).acquired =
        (g.threads i).released + (if updHeld (g.threads i).pc then 1 else 0)) ∧
      (∀ i : ℕ, (g.threads i).pc = PC.done →
        (g.threads i).acquired = (g.threads i).released) := by
  intro g hg
  obtain ⟨-, hUpd, -, hAcc, -⟩ := inv_reachable hg
  refine ⟨?_, hAcc, ?_⟩
  · intro i j hi hj
    have h1 := hUpd i (by rw [hi]; rfl)
    have h2 := hUpd j (by rw [hj]; rfl)
    rw [h1] at h2
    exact (Option.some.injEq _ _ ▸ h2)
  · intro i hi
    have := hAcc i
    rw [hi] at this
    simpa [updHeld] using this

/-- C2 witness: in the concrete nine-step interleaving in which thread 0
runs one admitted update to completion, thread 0 ends at `done` with its
single lock acquisition matched by a single release. -/
theorem claimC2_witness :
    (w9.threads 0).pc = PC.done ∧ (w9.threads 0).acquired = 1 ∧
      (w9.threads 0).acquired = (w9.threads 0).released := by
  refine ⟨by decide, by decide, ?_⟩
  exact (claimC2_mutual_exclusion_and_lock_discipline w9 reach_w9).2.2 0 (by decide)

/-- C9 counterexample: after thread 0 is admitted and acquires the update
lock but before it executes `_time_started = timezone.now()` (line 163),
the process is in a reachable state where the execution lock is held and
`_time_started` is still its initial `None`; evaluating the public
`is_can_start` surface in that state reaches `timezone.now() - None`,
which fails, refuting the claim that no such interleaving exists. -/
theorem claimC9_counterexample :
    Reachable w4 ∧ w4.updateOwner = some 0 ∧ w4.timeStarted = none ∧
      is_can_start_opt true ⟨some 1, false, 1⟩ 0 w4.timeStarted [] = none :=
  ⟨reach_w4, rfl, rfl, rfl⟩

/-- C9 amended: the window in which the execution lock is held but
`_time_started` is still unassigned lies entirely inside the admission
critical section — in every reachable state with the update lock held and
`_time_started = None`, the check lock is held by the same entering
thread.  Hence every `is_can_start` call made under the admission lock, as
`update`'s calls are, observes a valid start time; only a direct
out-of-protocol `canStart` call can race with the assignment. -/
theorem claimC9_amended :
    ∀ g : GState, Reachable g → ∀ i : ℕ,
      g.updateOwner = some i → g.timeStarted = none → g.checkOwner = some i := by
  intro g hg i hOwner hTime
  obtain ⟨hChk, -, hOwn, -, hStamp⟩ := inv_reachable hg
  have hHeld := hOwn i hOwner
  have hNotStamped : ¬((g.threads i).pc = PC.entryRelease ∨ (g.threads i).pc = PC.body ∨
      (g.threads i).pc = PC.exitRelease) := by
    intro hmem
    have := hStamp i hmem
    rw [hTime] at this
    simp at this
  apply hChk i
  cases hpc : (g.threads i).pc <;> rw [hpc] at hHeld hNotStamped <;>
    simp [updHeld, checkHeld] at hHeld hNotStamped ⊢
/-- C9 amended witness: in the concrete state `w4` exhibiting the window,
the check lock is indeed still held by the entering thread 0. -/
theorem claimC9_amended_witness : w4.checkOwner = some 0 :=
  claimC9_amended w4 reach_w4 0 rfl rfl

/-- C1 counterexample: with the job running since time 0, one clean
historical run of duration 10 (so the Duration Estimate exists and equals
10), multiplier 1, elapsed 5 (estimate threshold not exceeded), and a
configured fixed budget of 3 (exceeded, 5 > 3), the code refuses
admission, while the claim's reading of the else-if — a configured
exceeded budget admits even when an estimate exists — would admit. -/
theorem claimC1_counterexample :
    is_can_start true (some 3) true 1 5 0
        [⟨some 0, some 10, false, false, false, none⟩] = false ∧
    is_can_start_claimed true (some 3) true 1 5 0
        [⟨some 0, some 10, false, false, false, none⟩] = true ∧
    calc_average_update_time [⟨some 0, some 10, false, false, false, none⟩] = some 10 ∧
    ¬((5 : ℚ) - 0 > 10 * 1) ∧ qTruthy (some (3 : ℚ)) = true ∧ ((5 : ℚ) - 0 > 3) := by
  refine ⟨?_, ?_, ?_, by norm_num, by rfl, by norm_num⟩ <;>
    simp [is_can_start, is_can_start_claimed, calc_average_update_time,
      UpdateLog.isClean, UpdateLog.duration, qTruthy] <;>
    norm_num

/-- C1 amended: `is_can_start` admits when the class is not updating;
when it is updating, with adaptive mode enabled it admits if a truthy
(non-`None`, non-zero) estimate exists and elapsed exceeds estimate times
the multiplier; the fixed time budget is consulted only when no truthy
estimate exists (adaptive mode off, no qualifying history, or zero
average), admitting iff a truthy budget is configured and elapsed exceeds
it; else it refuses.  The base `UpdatableModel.is_can_start` admits iff
idle, or a truthy budget is configured and elapsed exceeds it. -/
theorem claimC1_amended :
    (∀ (isUpdating : Bool) (timeLimit : Option ℚ) (now timeStarted : ℚ),
      is_can_start_base isUpdating timeLimit now timeStarted = true ↔
        (isUpdating = false ∨
          (qTruthy timeLimit = true ∧ now - timeStarted > timeLimit.getD 0))) ∧
    (∀ (isUpdating : Bool) (timeLimit : Option ℚ) (useAverageTime : Bool)
        (coeff now timeStarted : ℚ) (store : List UpdateLog),
      is_can_start isUpdating timeLimit useAverageTime coeff now timeStarted store = true ↔
        (isUpdating = false ∨
          (useAverageTime = true ∧ qTruthy (calc_average_update_time store) = true ∧
            now - timeStarted > (calc_average_update_time store).getD 0 * coeff) ∨
          ((useAverageTime = false ∨ qTruthy (calc_average_update_time store) = false) ∧
            qTruthy timeLimit = true ∧ now - timeStarted > timeLimit.getD 0))) := by
  constructor
  · intro isUpdating timeLimit now timeStarted
    cases isUpdating
    · simp [is_can_start_base]
    · simp only [is_can_start_base, Bool.not_true, Bool.false_eq_true, if_false]
      split_ifs with h1 h2 <;>
        simp_all [Bool.not_eq_true]
  · intro isUpdating timeLimit useAverageTime coeff now timeStarted store
    cases isUpdating
    · simp [is_can_start]
    · cases useAverageTime <;>
        simp only [is_can_start, Bool.not_true, Bool.false_eq_true, if_false,
          if_true, qTruthy] <;>
        split_ifs with h1 h2 <;>
        simp_all [Bool.and_eq_true, decide_eq_true_eq, Bool.not_eq_true]

/-- A helper for C3: in the transition system, a single step taken from a
state in which thread `i` has been refused admission leaves that thread's
update-lock acquisition count unchanged and its program counter at
`reject` or `done` — a rejected caller never blocks on, or acquires, the
execution lock, and never reaches the job body. -/
theorem reject_step_no_execution {g g' : GState} (i : ℕ) (hstep : Step g g')
    (hpc : (g.threads i).pc = PC.reject) :
    (g'.threads i).acquired = (g.threads i).acquired ∧
      ((g'.threads i).pc = PC.reject ∨ (g'.threads i).pc = PC.done) := by
  cases hstep with
  | acquireCheck j hj hfree =>
      rcases eq_or_ne i j with rfl | hij
      · rw [hpc] at hj; cases hj
      · simp [Function.update_apply, hij, hpc]
  | decideTrue j hj =>
      rcases eq_or_ne i j with rfl | hij
      · rw [hpc] at hj; cases hj
      · simp [Function.update_apply, hij, hpc]
  | decideFalse j hj hbusy =>
      rcases eq_or_ne i j with rfl | hij
      · rw [hpc] at hj; cases hj
      · simp [Function.update_apply, hij, hpc]
  | rejectReturn j hj =>
      rcases eq_or_ne i j with rfl | hij
      · simp [Function.update_apply]
      · simp [Function.update_apply, hij, hpc]
  | setTermFlag j hj =>
      rcases eq_or_ne i j with rfl | hij
      · rw [hpc] at hj; cases hj
      · simp [Function.update_apply, hij, hpc]
  | acquireUpdate j hj hfree =>
      rcases eq_or_ne i j with rfl | hij
      · rw [hpc] at hj; cases hj
      · simp [Function.update_apply, hij, hpc]
  | entryClearFlag j hj =>
      rcases eq_or_ne i j with rfl | hij
      · rw [hpc] at hj; cases hj
      · simp [Function.update_apply, hij, hpc]
  | entryStampTime j t hj =>
      rcases eq_or_ne i j with rfl | hij
      · rw [hpc] at hj; cases hj
      · simp [Function.update_apply, hij, hpc]
  | entryReleaseCheck j hj =>
      rcases eq_or_ne i j with rfl | hij
      · rw [hpc] at hj; cases hj
      · simp [Function.update_apply, hij, hpc]
  | runBody j o hj =>
      rcases eq_or_ne i j with rfl | hij
      · rw [hpc] at hj; cases hj
      · simp [Function.update_apply, hij, hpc]
  | exitReleaseUpdate j hj =>
      rcases eq_or_ne i j with rfl | hij
      · rw [hpc] at hj; cases hj
      · simp [Function.update_apply, hij, hpc]

/-- C3: whenever `update` is called and admission is refused, it appends a
run record that is immediately finalized with `was_canceled = true` and
equal creation and completion timestamps (both the current time), touches
nothing else, returns `(success = false, primaryError = none,
secondaryError = none)` regardless of the job body's (never invoked)
outcome, and — in the transition system — a refused caller proceeds
straight to returning without ever blocking on or acquiring the execution
lock. -/
theorem claimC3_rejection_path :
    ∀ (cfg : Config) (isUpdating : Bool) (s : UState) (tNow tFinish : ℚ)
      (body : BodyOutcome) (hExc : Option Exc),
      is_can_start_opt isUpdating cfg tNow s.timeStarted s.store = some false →
      (update cfg isUpdating s tNow tFinish body hExc =
        some ((false, none, none),
          { s with store := s.store ++ [canceledRecord tNow] })) ∧
      (canceledRecord tNow).was_canceled = true ∧
      (canceledRecord tNow).time_created = some tNow ∧
      (canceledRecord tNow).time_finished = some tNow ∧
      (∀ g g' : GState, ∀ i : ℕ, Step g g' → (g.threads i).pc = PC.reject →
        (g'.threads i).acquired = (g.threads i).acquired ∧
          ((g'.threads i).pc = PC.reject ∨ (g'.threads i).pc = PC.done)) := by
  intro cfg isUpdating s tNow tFinish body hExc hRefused
  refine ⟨?_, rfl, rfl, rfl, fun g g' i hstep hpc => reject_step_no_execution i hstep hpc⟩
  simp only [update, hRefused]

/-- C3 witness: a concrete refused call — the class is updating with a
start time of 0, a budget of 1 not yet exceeded at time 0, adaptive mode
off — appends exactly the canceled record and reports
`(false, none, none)`. -/
theorem claimC3_witness :
    update ⟨some 1, false, 1⟩ true ⟨[], some 0, false⟩ 0 0 .ok none =
      some ((false, none, none),
        { store := [canceledRecord 0], timeStarted := some 0, mustTerminate := false }) := by
  have h := (claimC3_rejection_path ⟨some 1, false, 1⟩ true ⟨[], some 0, false⟩ 0 0 .ok none
    (by simp [is_can_start_opt, is_can_start, calc_average_update_time, qTruthy])).1
  simpa using h

/-- C4: when the job body raises, the finalized record has
`was_terminated = true` exactly when the exception is the
`ProcessTerminatedError` sentinel, otherwise `has_failed = true` with the
full diagnostic traceback captured in `messages`; in both cases the
completion timestamp is set to the finalization time. -/
theorem claimC4_failure_taxonomy :
    ∀ (cfg : Config) (isUpdating : Bool) (s : UState) (tNow tFinish : ℚ) (e : Exc),
      is_can_start_opt isUpdating cfg tNow s.timeStarted s.store = some true →
      (update cfg isUpdating s tNow tFinish (.raise e) none =
        some ((false, some e, none),
          { store := s.store ++ [failedRecord tNow tFinish e]
            timeStarted := some tNow
            mustTerminate := false })) ∧
      ((failedRecord tNow tFinish e).was_terminated = true ↔ e = .processTerminated) ∧
      ((failedRecord tNow tFinish e).has_failed = true ↔ e ≠ .processTerminated) ∧
      (failedRecord tNow tFinish e).messages = some (formatTraceback e) ∧
      (failedRecord tNow tFinish e).time_finished = some tFinish := by
  intro cfg isUpdating s tNow tFinish e hAdm
  refine ⟨?_, ?_, ?_, rfl, rfl⟩
  · simp only [update, hAdm]
  · simp [failedRecord]
  · simp [failedRecord]

/-- C4 witness: an idle class admits; a body raising a non-sentinel error
yields a record with `has_failed`, not `was_terminated`, the traceback in
`messages`, and completion time 2. -/
theorem claimC4_witness :
    update ⟨none, false, 1⟩ false ⟨[], none, false⟩ 1 2 (.raise (.other "boom")) none =
      some ((false, some (.other "boom"), none),
        { store := [failedRecord 1 2 (.other "boom")]
          timeStarted := some 1
          mustTerminate := false }) ∧
    (failedRecord 1 2 (.other "boom")).has_failed = true ∧
    (failedRecord 1 2 (.other "boom")).was_terminated = false := by
  have h := claimC4_failure_taxonomy ⟨none, false, 1⟩ false ⟨[], none, false⟩ 1 2
    (.other "boom") (by simp [is_can_start_opt])
  exact ⟨by simpa using h.1, by simp [failedRecord], by simp [failedRecord]⟩

/-- C5: when the failure-handling step raises a second error while a
job-body error is being handled, `update` returns the secondary error in
the third result slot alongside the primary error in the second slot with
`success = false`; and whatever the handler does, the primary error slot
always carries the job body's exception — the secondary never replaces or
masks it. -/
theorem claimC5_secondary_error :
    ∀ (cfg : Config) (isUpdating : Bool) (s : UState) (tNow tFinish : ℚ)
      (e e2 : Exc),
      is_can_start_opt isUpdating cfg tNow s.timeStarted s.store = some true →
      (update cfg isUpdating s tNow tFinish (.raise e) (some e2) =
        some ((false, some e, some e2),
          { store := s.store ++ [UpdateLog.fresh (some tNow)]
            timeStarted := some tNow
            mustTerminate := false })) ∧
      (∀ hExc : Option Exc, ∃ secondary st,
        update cfg isUpdating s tNow tFinish (.raise e) hExc =
          some ((false, some e, secondary), st)) := by
  intro cfg isUpdating s tNow tFinish e e2 hAdm
  constructor
  · simp only [update, hAdm]
  · intro hExc
    cases hExc <;> simp only [update, hAdm] <;> exact ⟨_, _, rfl⟩

/-- C5 witness: with an idle class, body error `boom` and handler error
`db down`, the result carries both errors in order, and the log keeps the
still-open record (the failed save persisted nothing). -/
theorem claimC5_witness :
    update ⟨none, false, 1⟩ false ⟨[], none, false⟩ 1 2 (.raise (.other "boom"))
        (some (.other "db down")) =
      some ((false, some (.other "boom"), some (.other "db down")),
        { store := [UpdateLog.fresh (some 1)]
          timeStarted := some 1
          mustTerminate := false }) := by
  have h := (claimC5_secondary_error ⟨none, false, 1⟩ false ⟨[], none, false⟩ 1 2
    (.other "boom") (.other "db down") (by simp [is_can_start_opt])).1
  simpa using h

/-- The outcome-flag invariant of a run record (spec §3): at most one of
`was_terminated`/`has_failed` is set, and neither is set together with
`was_canceled`. -/
def UpdateLog.outcomeFlagsOK (r : UpdateLog) : Bool :=
  !(r.was_terminated && r.has_failed)
    && (!r.was_canceled || (!r.was_terminated && !r.has_failed))

/-- C6: every path of the scheduler — rejection, normal completion,
termination, failure, and failure-during-failure-handling — preserves the
outcome-flag invariant: in the store after any `update` call whose prior
records all satisfy it, every record has at most one of
`was_terminated`/`has_failed` set and neither set when `was_canceled`
is. -/
theorem claimC6_outcome_exclusivity :
    ∀ (cfg : Config) (isUpdating : Bool) (s : UState) (tNow tFinish : ℚ)
      (body : BodyOutcome) (hExc : Option Exc)
      (res : Bool × Option Exc × Option Exc) (s' : UState),
      (∀ r ∈ s.store, r.outcomeFlagsOK = true) →
      update cfg isUpdating s tNow tFinish body hExc = some (res, s') →
      ∀ r ∈ s'.store, r.outcomeFlagsOK = true := by
  intro cfg isUpdating s tNow tFinish body hExc res s' hPrior hUpd
  intro r hr
  cases hAdm : is_can_start_opt isUpdating cfg tNow s.timeStarted s.store with
  | none =>
      rw [update, hAdm] at hUpd
      exact Option.noConfusion hUpd
  | some b =>
      cases b with
      | false =>
          simp only [update, hAdm, Option.some.injEq, Prod.mk.injEq] at hUpd
          obtain ⟨-, hs'⟩ := hUpd
          rw [← hs'] at hr
          rcases List.mem_append.mp hr with hmem | hmem
          · exact hPrior r hmem
          · simp only [List.mem_singleton] at hmem
            subst hmem
            simp [canceledRecord, UpdateLog.outcomeFlagsOK, UpdateLog.fresh]
      | true =>
          cases body with
          | ok =>
              simp only [update, hAdm, Option.some.injEq, Prod.mk.injEq] at hUpd
              obtain ⟨-, hs'⟩ := hUpd
              rw [← hs'] at hr
              rcases List.mem_append.mp hr with hmem | hmem
              · exact hPrior r hmem
              · simp only [List.mem_singleton] at hmem
                subst hmem
                simp [UpdateLog.outcomeFlagsOK, UpdateLog.fresh]
          | raise e =>
              cases hExc with
              | none =>
                  simp only [update, hAdm, Option.some.injEq, Prod.mk.injEq] at hUpd
                  obtain ⟨-, hs'⟩ := hUpd
                  rw [← hs'] at hr
                  rcases List.mem_append.mp hr with hmem | hmem
                  · exact hPrior r hmem
                  · simp only [List.mem_singleton] at hmem
                    subst hmem
                    cases e <;> simp [failedRecord, UpdateLog.outcomeFlagsOK]
              | some e2 =>
                  simp only [update, hAdm, Option.some.injEq, Prod.mk.injEq] at hUpd
                  obtain ⟨-, hs'⟩ := hUpd
                  rw [← hs'] at hr
                  rcases List.mem_append.mp hr with hmem | hmem
                  · exact hPrior r hmem
                  · simp only [List.mem_singleton] at hmem
                    subst hmem
                    simp [UpdateLog.outcomeFlagsOK, UpdateLog.fresh]

/-- C6 witness: the record finalized by a concrete successful run (class
idle, empty history, body succeeds) satisfies the outcome-flag
invariant. -/
theorem claimC6_witness :
    ({ UpdateLog.fresh (some 0) with time_finished := some 1}).outcomeFlagsOK = true := by
  refine claimC6_outcome_exclusivity ⟨none, false, 1⟩ false ⟨[], none, false⟩ 0 1 .ok none
    (true, none, none)
    { store := [{ UpdateLog.fresh (some 0) with time_finished := some 1}]
      timeStarted := some 0
      mustTerminate := false }
    (by simp) (by simp [update, is_can_start_opt]) _ (by simp)

/-- C7: the Duration Estimator `calc_average_update_time` equals the
arithmetic mean of completion minus creation over exactly the records with
`was_canceled = was_terminated = has_failed = false` and both timestamps
present, and yields the explicit no-data result `none` when zero records
qualify. -/
theorem claimC7_duration_estimator :
    ∀ store : List UpdateLog,
      calc_average_update_time store = durationEstimateSpec store ∧
      (store.filter UpdateLog.isClean = [] →
        calc_average_update_time store = none) := by
  intro store
  constructor
  · cases h : store.filter UpdateLog.isClean with
    | nil => simp [calc_average_update_time, durationEstimateSpec, h]
    | cons a l => simp [calc_average_update_time, durationEstimateSpec, h]
  · intro h
    simp [calc_average_update_time, h]

/-- C7 witness: on an empty history the estimator reports no data. -/
theorem claimC7_witness : calc_average_update_time [] = none :=
  (claimC7_duration_estimator []).2 rfl

/-- The filter of `get_last_successful_update_time`:
`was_canceled = was_terminated = has_failed = False`. -/
def successFilter (r : UpdateLog) : Bool :=
  r.was_canceled == false && r.was_terminated == false && r.has_failed == false

/-- The filter of `get_last_update_attempt_time`: `was_canceled = False`. -/
def attemptFilter (r : UpdateLog) : Bool :=
  r.was_canceled == false

theorem latestTimeFinished_eq_spec (l : List UpdateLog) :
    latestTimeFinished l =
      (l.filterMap UpdateLog.time_finished).foldr
        (fun t acc => some (match acc with | none => t | some a => max t a)) none := by
  induction l with
  | nil => rfl
  | cons r l ih =>
      cases h : r.time_finished with
      | none => simp [latestTimeFinished, List.filterMap_cons, h, ← ih, latestTimeFinished]
      | some t =>
          simp only [latestTimeFinished, List.foldr_cons, List.filterMap_cons, h] at ih ⊢
          rw [ih]
          cases ((l.filterMap UpdateLog.time_finished).foldr
            (fun t acc => some (match acc with | none => t | some a => max t a)) none) <;> rfl

theorem get_last_update_time_eq_spec (p : UpdateLog → Bool) (store : List UpdateLog) :
    get_last_update_time p store = latestCompletionSpec p store := by
  unfold get_last_update_time latestCompletionSpec
  cases h : store.filter p with
  | nil => simp
  | cons a l =>
      simp only [List.isEmpty_cons, if_false, Bool.false_eq_true]
      rw [← h, latestTimeFinished_eq_spec]

/-- C8: `get_last_update_attempt_time` returns the latest completion
timestamp among the records with `was_canceled = false`,
`get_last_successful_update_time` the latest completion timestamp among
the records with all three outcome flags false, and both return `none`
when no record qualifies. -/
theorem claimC8_history_read_models :
    ∀ store : List UpdateLog,
      get_last_update_attempt_time store = latestCompletionSpec attemptFilter store ∧
      get_last_successful_update_time store = latestCompletionSpec successFilter store ∧
      (store.filter attemptFilter = [] →
        get_last_update_attempt_time store = none) ∧
      (store.filter successFilter = [] →
        get_last_successful_update_time store = none) := by
  intro store
  have h1 : get_last_update_attempt_time store = latestCompletionSpec attemptFilter store := by
    unfold get_last_update_attempt_time attemptFilter
    exact get_last_update_time_eq_spec _ store
  refine ⟨h1, ?_, ?_, ?_⟩
  · unfold get_last_successful_update_time successFilter
    exact get_last_update_time_eq_spec _ store
  · intro h
    rw [h1]
    unfold latestCompletionSpec
    rw [h]
    rfl
  · intro h
    have h2 : get_last_successful_update_time store = latestCompletionSpec successFilter store := by
      unfold get_last_successful_update_time successFilter
      exact get_last_update_time_eq_spec _ store
    rw [h2]
    unfold latestCompletionSpec
    rw [h]
    rfl

/-- C8 witness: both read models report absence on an empty history. -/
theorem claimC8_witness :
    get_last_update_attempt_time [] = none ∧
      get_last_successful_update_time [] = none :=
  ⟨(claimC8_history_read_models []).2.2.1 rfl, (claimC8_history_read_models []).2.2.2 rfl⟩

/-- C10: for any auto-deletable model with a configured maximum object
count `m`, `bulk_create` raises `OperationConflictsConfigError` whenever
the current count plus the number of objects to insert exceeds `m`, and
then inserts nothing — the store is unchanged; otherwise it inserts all
objects and runs the retention trim, which removes the oldest objects over
the cap (here none are over it, so all inserted objects survive). -/
theorem claimC10_bulk_create_cap :
    ∀ {α : Type} (m : ℕ) (store objs : List α),
      (store.length + objs.length > m →
        bulk_create (some m) store objs =
          (store, some BulkError.operationConflictsConfig)) ∧
      (store.length + objs.length ≤ m →
        bulk_create (some m) store objs =
          ((store ++ objs).drop ((store ++ objs).length - m), none) ∧
        bulk_create (some m) store objs = (store ++ objs, none)) := by
  intro α m store objs
  constructor
  · intro h
    simp [bulk_create, h]
  · intro h
    have hnot : ¬ store.length + objs.length > m := by omega
    have hall : (store ++ objs).length = store.length + objs.length :=
      List.length_append store objs
    have htrim : try_delete_objects (some m) (store ++ objs) = store ++ objs := by
      unfold try_delete_objects get_objects_to_delete
      by_cases hm : m = 0
      · subst hm
        have hs : store = [] := List.length_eq_zero.mp (by omega)
        have ho : objs = [] := List.length_eq_zero.mp (by omega)
        subst hs; subst ho
        simp [natTruthy]
      · have hmt : natTruthy (some m) = true := by
          simp [natTruthy]
          omega
        simp only [hmt, if_true, Option.getD_some, hall]
        have hle : (store.length + objs.length : ℤ) - (m : ℤ) ≤ 0 := by
          omega
        simp [hle]
    have hdrop : (store ++ objs).drop ((store ++ objs).length - m) = store ++ objs := by
      have : (store ++ objs).length - m = 0 := by omega
      rw [this]
      exact List.drop_zero _
    have hbc : bulk_create (some m) store objs = (store ++ objs, none) := by
      simp [bulk_create, hnot, htrim]
    refine ⟨?_, hbc⟩
    rw [hbc, hdrop]

/-- C10 witness: with a cap of 2, one stored object and two to insert, the
call errors and the store is unchanged; with a cap of 3 it inserts both
and keeps everything (nothing exceeds the cap after insertion). -/
theorem claimC10_witness :
    bulk_create (some 2) [10] [20, 30] =
      ([10], some BulkError.operationConflictsConfig) ∧
    bulk_create (some 3) [10] [20, 30] = ([10, 20, 30], none) :=
  ⟨(claimC10_bulk_create_cap 2 [10] [20, 30]).1 (by decide),
    ((claimC10_bulk_create_cap 3 [10] [20, 30]).2 (by decide)).2⟩

end UpdScheduler
